import Mathlib

/-!
# Verification of the dashboard aggregation handlers

Shallow embedding of the two request handlers of this repository:

* the Issue Aggregator (an Astro `GET` route querying the Linear GraphQL API),
* the PR Aggregator (a Cloudflare Pages `onRequest` function querying the
  GitHub GraphQL search API and REST workflow/job endpoints).

Modelling conventions:

* ISO-8601 timestamp strings that the code only ever compares through
  `new Date(s).getTime()` are embedded as their epoch-millisecond value
  (an `Int`); `getTime` is strictly monotone on well-formed ISO strings,
  so order-sensitive claims transfer faithfully.
* JavaScript falsiness of an optional string (`!s`, `s || d`) is embedded
  by `falsyStr` / explicit emptiness tests.
* The KV cache binding is a partial map `String → Option α`; an expired
  entry reads back as `none`, exactly as Cloudflare KV `get` does.
* Network effects are passed in as explicit arguments (the upstream
  outcome for the Linear fetch, a per-query result function for the
  GitHub search, a `RestWorld` for the workflow/job REST lookups) and
  the handlers are instrumented with call / put counters so that claims
  about "no upstream call" and "stored before responding" are statable.
-/

/-- JavaScript truthiness test for an optional string: `undefined`/missing
and the empty string are falsy. -/
def falsyStr : Option String → Bool
  | none => true
  | some s => decide (s = "")

/-- Models `env.X_CACHE_TTL || "90"`: the default applies when the variable
is unset or empty (falsy). -/
def ttlOf : Option String → String
  | none => "90"
  | some s => if s = "" then "90" else s

/-- A key-value cache binding (Cloudflare KV): `get` returns `none` for an
absent or expired entry. -/
structure KV (V : Type) where
  get : String → Option V

/-- A recorded `put` into the KV cache. -/
structure PutRecord (V : Type) where
  key : String
  value : V
  ttl : String
deriving DecidableEq

/-! ## Issue Aggregator (part_000): data model -/

/-- Upstream `state` object of a Linear issue node. -/
structure RawState where
  name : String
  type : String
  color : String
deriving DecidableEq

/-- Upstream `project` object of a Linear issue node. -/
structure RawProject where
  name : String
  icon : Option String
  color : String
deriving DecidableEq

/-- Upstream `assignee` object of a Linear issue node. -/
structure RawAssignee where
  name : String
  avatarUrl : Option String
deriving DecidableEq

/-- Upstream `team` object of a Linear issue node. -/
structure RawTeam where
  name : String
  key : String
deriving DecidableEq

/-- One node of `result.data.issues.nodes` as returned by the Linear
GraphQL query.  `priority` is `none` when the field is `null` or absent. -/
structure RawIssue where
  id : String
  identifier : String
  title : String
  url : String
  createdAt : Int
  updatedAt : Int
  priority : Option Int
  state : RawState
  project : Option RawProject
  assignee : Option RawAssignee
  team : RawTeam
deriving DecidableEq

/-- `status` sub-object of the transformed `LinearIssue`. -/
structure IssueStatus where
  name : String
  type : String
  color : String
deriving DecidableEq

/-- `priority` sub-object of the transformed `LinearIssue`. -/
structure IssuePriority where
  value : Int
  name : String
deriving DecidableEq

/-- `project` sub-object of the transformed `LinearIssue`. -/
structure IssueProject where
  name : String
  icon : Option String
  color : String
deriving DecidableEq

/-- `assignee` sub-object of the transformed `LinearIssue`. -/
structure IssueAssignee where
  name : String
  avatarUrl : Option String
deriving DecidableEq

/-- `team` sub-object of the transformed `LinearIssue`. -/
structure IssueTeam where
  name : String
  key : String
deriving DecidableEq

/-- The transformed `LinearIssue` produced by the route's `map`. -/
structure Issue where
  id : String
  identifier : String
  title : String
  url : String
  status : IssueStatus
  priority : Option IssuePriority
  project : Option IssueProject
  assignee : Option IssueAssignee
  createdAt : Int
  updatedAt : Int
  team : IssueTeam
deriving DecidableEq

/-- The fixed display-name lookup table
`["No priority", "Urgent", "High", "Normal", "Low"]`. -/
def priorityNames : List String :=
  ["No priority", "Urgent", "High", "Normal", "Low"]

/-- Models the JS expression
`["No priority","Urgent","High","Normal","Low"][p] || "Unknown"`:
indexing out of range (negative, fractional-free integer model, or `≥ 5`)
yields `undefined`, which the `||` turns into `"Unknown"`; every in-range
entry is a non-empty (truthy) string. -/
def priorityDisplayName (v : Int) : String :=
  if v < 0 then "Unknown" else priorityNames.getD v.toNat "Unknown"

/-- The per-issue transform of the route (`result.data.issues.nodes.map`). -/
def toIssue (i : RawIssue) : Issue :=
  { id := i.id
    identifier := i.identifier
    title := i.title
    url := i.url
    status := { name := i.state.name, type := i.state.type, color := i.state.color }
    priority := i.priority.map fun v => { value := v, name := priorityDisplayName v }
    project := i.project.map fun p => { name := p.name, icon := p.icon, color := p.color }
    assignee := i.assignee.map fun a => { name := a.name, avatarUrl := a.avatarUrl }
    createdAt := i.createdAt
    updatedAt := i.updatedAt
    team := { name := i.team.name, key := i.team.key } }

/-! ## Issue Aggregator: sort comparator -/

/-- Effective sort rank of an issue inside the comparator:
`aPriority = a.priority?.value ?? 999` followed by
`aSort = aPriority === 0 ? 999 : aPriority`. -/
def rankOf (i : Issue) : Int :=
  let p := (i.priority.map (·.value)).getD 999
  if p = 0 then 999 else p

/-- The comparator passed to `issues.sort`:
`if (aSort !== bSort) return aSort - bSort; return bTime - aTime`. -/
def cmpIssue (a b : Issue) : Int :=
  if rankOf a ≠ rankOf b then rankOf a - rankOf b else b.updatedAt - a.updatedAt

/-- The "comes before or ties" preorder induced by the comparator
(comparator result `≤ 0`). -/
def issueLE (a b : Issue) : Prop := cmpIssue a b ≤ 0

instance : DecidableRel issueLE := fun a b => Int.decLe (cmpIssue a b) 0

/-- `Array.prototype.sort` with a consistent comparator produces a list
sorted with respect to the comparator's "≤"; we embed it as an insertion
sort over `issueLE`. -/
def sortIssues (l : List Issue) : List Issue := List.insertionSort issueLE l

/-- The sort-policy relation as the spec states it: strictly smaller
effective rank first, equal ranks ordered by non-increasing `updatedAt`. -/
def specSortRel (a b : Issue) : Prop :=
  rankOf a < rankOf b ∨ (rankOf a = rankOf b ∧ b.updatedAt ≤ a.updatedAt)

theorem issueLE_iff (a b : Issue) : issueLE a b ↔ specSortRel a b := by
  unfold issueLE specSortRel cmpIssue
  split
  · omega
  · omega

instance : IsTotal Issue issueLE where
  total a b := by
    rw [issueLE_iff, issueLE_iff]
    unfold specSortRel
    omega

instance : IsTrans Issue issueLE where
  trans a b c hab hbc := by
    rw [issueLE_iff] at *
    unfold specSortRel at *
    omega

theorem sortIssues_sorted (l : List Issue) : (sortIssues l).Sorted specSortRel := by
  have h := List.sorted_insertionSort issueLE l
  exact h.imp fun hab => (issueLE_iff _ _).mp hab

/-! ## Issue Aggregator: request handler -/

/-- Environment of the issue route (`runtime.env` / `import.meta.env`).
`hasCache` records whether the `GH_CACHE` KV binding is present. -/
structure LinearEnv where
  LINEAR_TOKEN : Option String
  LINEAR_CACHE_TTL : Option String
  hasCache : Bool

/-- Outcome of the single upstream Linear call, as observed by the
`try` block: the `fetch` itself may throw, the response may be non-OK,
the GraphQL payload may carry an `errors` array, or everything succeeds. -/
inductive FetchOutcome where
  | thrown (msg : String)
  | httpError (status : Nat)
  | gqlErrors (errs : String)
  | ok (raws : List RawIssue)

/-- The body of the `try` block up to a parsed node list: non-OK responses
and GraphQL error payloads are re-thrown as `Error`s with the messages the
source builds. -/
def linearFetch : FetchOutcome → Except String (List RawIssue)
  | .thrown m => .error m
  | .httpError s => .error ("Linear API error: " ++ toString s)
  | .gqlErrors e => .error ("Linear GraphQL errors: " ++ e)
  | .ok raws => .ok raws

/-- The fresh payload built on a cache miss: transformed nodes, sorted. -/
structure LinearData where
  generatedAt : Int
  issues : List Issue
deriving DecidableEq

/-- Transform-and-sort pipeline of the miss path. -/
def linearMissPayload (now : Int) (raws : List RawIssue) : LinearData :=
  { generatedAt := now, issues := sortIssues (raws.map toIssue) }

/-- The distinguishable response bodies the issue route can produce. -/
inductive LinearBody where
  | missingToken
  | cached (v : LinearData)
  | fresh (v : LinearData)
  | fetchFailed (details : String)
deriving DecidableEq

/-- Observable result of one issue-route request: HTTP status, body,
`x-cache` header, number of upstream fetches attempted, cache writes. -/
structure LinearResult where
  status : Nat
  body : LinearBody
  xcache : Option String
  upstreamCalls : Nat
  cachePuts : List (PutRecord LinearData)
deriving DecidableEq

/-- Fixed cache key of the issue route. -/
def linearCacheKey : String := "linear:recent-issues"

/-- The issue route `GET` handler. -/
def linearGET (env : LinearEnv) (cache : KV LinearData) (now : Int)
    (upstream : FetchOutcome) : LinearResult :=
  if falsyStr env.LINEAR_TOKEN then
    { status := 500, body := .missingToken, xcache := none,
      upstreamCalls := 0, cachePuts := [] }
  else
    match (if env.hasCache then cache.get linearCacheKey else none) with
    | some v =>
      { status := 200, body := .cached v, xcache := some "HIT",
        upstreamCalls := 0, cachePuts := [] }
    | none =>
      match linearFetch upstream with
      | .error m =>
        { status := 500, body := .fetchFailed m, xcache := none,
          upstreamCalls := 1, cachePuts := [] }
      | .ok raws =>
        let data := linearMissPayload now raws
        { status := 200, body := .fresh data, xcache := some "MISS",
          upstreamCalls := 1,
          cachePuts :=
            if env.hasCache then [⟨linearCacheKey, data, ttlOf env.LINEAR_CACHE_TTL⟩]
            else [] }

/-! ## PR Aggregator (part_001): data model -/

/-- `statusCheckRollup.state` values of the GraphQL schema. -/
inductive Rollup where
  | SUCCESS | FAILURE | PENDING | ERROR | EXPECTED | ACTION_REQUIRED | TIMED_OUT
deriving DecidableEq

/-- Discriminator of a CI check entry. -/
inductive CheckKind where
  | CheckRun | StatusContext
deriving DecidableEq

/-- One entry of `status.checks` (tagged union of the two upstream shapes). -/
structure Check where
  kind : CheckKind
  name : String
  status : Option String
  conclusion : Option String
  state : Option String
  detailsUrl : Option String
  targetUrl : Option String
deriving DecidableEq

/-- `status` sub-object of a `PRBasic`. -/
structure PRStatus where
  rollup : Option Rollup
  checks : List Check
deriving DecidableEq

/-- `repo` sub-object of a `PRBasic`. -/
structure RepoRef where
  owner : String
  name : String
  url : String
deriving DecidableEq

/-- `author` sub-object of a `PRBasic`. -/
structure PRAuthor where
  login : String
  avatarUrl : String
  url : String
deriving DecidableEq

/-- A label of a `PRBasic`. -/
structure PRLabel where
  name : String
  color : String
deriving DecidableEq

/-- One normalized CI job attached by the enrichment step. -/
structure Job where
  name : String
  status : String
  conclusion : Option String
  started_at : Option String
  html_url : String
deriving DecidableEq

/-- The `PRBasic` record of the source.  `jobs` is `none` until (and
unless) the enrichment step sets it. -/
structure PRBasic where
  id : String
  number : Int
  title : String
  url : String
  repo : RepoRef
  author : Option PRAuthor
  updatedAt : String
  createdAt : String
  isDraft : Bool
  labels : List PRLabel
  headSha : Option String
  status : PRStatus
  jobs : Option (List Job)
deriving DecidableEq

/-! ## PR Aggregator: scope parsing, cache key, queries -/

/-- ASCII whitespace recognized by `String.prototype.trim`. -/
def isJsWS (c : Char) : Bool :=
  c = ' ' || c = '\t' || c = '\n' || c = '\r' || c = '\x0b' || c = '\x0c'

/-- `trim`: drop leading and trailing whitespace (on the character list). -/
def trimChars (cs : List Char) : List Char :=
  ((cs.dropWhile isJsWS).reverse.dropWhile isJsWS).reverse

/-- `String.prototype.split(",")` on the character list; note
`"".split(",")` is `[""]`, i.e. the empty input yields one empty group. -/
def splitOnComma : List Char → List (List Char)
  | [] => [[]]
  | c :: cs =>
    if c = ',' then [] :: splitOnComma cs
    else
      match splitOnComma cs with
      | [] => [[c]]
      | g :: gs => (c :: g) :: gs

/-- `(env.GH_QUERY_ORGS || "").split(",").map(s => s.trim()).filter(Boolean)`.
(The emptiness filter is applied to the trimmed character lists before
repackaging them as strings; a string is falsy exactly when its character
list is empty.) -/
def parseOrgs (s : Option String) : List String :=
  (((splitOnComma (s.getD "").data).map trimChars).filter
    fun g => decide (g ≠ [])).map fun g => ⟨g⟩

/-- `Array.prototype.join(",")`. -/
def joinComma : List String → String
  | [] => ""
  | [s] => s
  | s :: rest => s ++ ("," ++ joinComma rest)

/-- `` `overview:${scopeOrgs.join(",") || "all"}` ``. -/
def cacheKeyOf (orgs : List String) : String :=
  "overview:" ++ (if joinComma orgs = "" then "all" else joinComma orgs)

/-- `scopeOrgs.length > 0 ? scopeOrgs : [undefined]`: per-org passes, or a
single unscoped pass when no orgs are configured. -/
def orgsToQueryOf (orgs : List String) : List (Option String) :=
  if orgs.length > 0 then orgs.map some else [none]

/-- The three search query strings built by `buildQueries`. -/
structure Queries where
  mine : String
  review : String
  assigned : String
deriving DecidableEq

/-- `buildQueries(org)`: the org filter is appended only when an org is
given. -/
def buildQueries (org : Option String) : Queries :=
  let orgFilter := match org with | some o => " org:" ++ o | none => ""
  { mine := "is:pr is:open author:@me sort:updated-desc" ++ orgFilter
    review := "is:pr is:open review-requested:@me sort:updated-desc" ++ orgFilter
    assigned := "is:pr is:open assignee:@me sort:updated-desc" ++ orgFilter }

/-! ## PR Aggregator: deduplication (JS `Map` semantics) -/

/-- `Map.prototype.set` on an association list: an existing key keeps its
position but takes the new value, a new key is appended. -/
def mapSet (acc : List (String × PRBasic)) (k : String) (v : PRBasic) :
    List (String × PRBasic) :=
  if acc.any fun e => decide (e.1 = k) then
    acc.map fun e => if e.1 = k then (e.1, v) else e
  else acc ++ [(k, v)]

/-- `new Map(l.map(pr => [pr.id, pr]))` as iterated `set`. -/
def mapFromEntries (l : List PRBasic) : List (String × PRBasic) :=
  l.foldl (fun acc pr => mapSet acc pr.id pr) []

/-- `Array.from(new Map(l.map(pr => [pr.id, pr])).values())`. -/
def dedupById (l : List PRBasic) : List PRBasic :=
  (mapFromEntries l).map (·.2)

/-! ## PR Aggregator: enrichment selection and `attachJobs` -/

/-- `p.status.rollup === "PENDING"`. -/
def pendingPR (p : PRBasic) : Bool :=
  decide (p.status.rollup = some Rollup.PENDING)

/-- Which deduplicated bucket a candidate object lives in.  JavaScript
`attachJobs` mutates the selected objects in place; since ids are unique
inside each deduplicated bucket, an occurrence is identified by
(bucket, value), which the embedding threads explicitly. -/
inductive Bucket where
  | mine | review | assigned
deriving DecidableEq

/-- The concatenation `[...mine, ...review, ...assigned]`, with each
element tagged by the bucket it came from. -/
def taggedConcat (mine review assigned : List PRBasic) : List (Bucket × PRBasic) :=
  mine.map (fun p => (Bucket.mine, p)) ++ review.map (fun p => (Bucket.review, p))
    ++ assigned.map (fun p => (Bucket.assigned, p))

/-- The enrichment candidates before the cap:
`[...mine, ...review, ...assigned].filter(p => p.status.rollup === "PENDING")`. -/
def candidatesOf (mine review assigned : List PRBasic) : List PRBasic :=
  (mine ++ review ++ assigned).filter pendingPR

/-- `running`: pending candidates capped by `.slice(0, 8)`, tagged. -/
def runningOf (mine review assigned : List PRBasic) : List (Bucket × PRBasic) :=
  ((taggedConcat mine review assigned).filter fun tp => pendingPR tp.2).take 8

/-- The untagged `running` list exactly as the source computes it. -/
def runningPRsOf (mine review assigned : List PRBasic) : List PRBasic :=
  (runningOf mine review assigned).map (·.2)

/-- A workflow run as returned by `listWorkflowRunsForRepo`;
`pull_requests` is `none` when the field is not an array. -/
structure WorkflowRun where
  id : Int
  head_sha : String
  pull_requests : Option (List Int)
deriving DecidableEq

/-- A job as returned by `listJobsForWorkflowRun`. -/
structure RawJob where
  name : String
  status : Option String
  conclusion : Option String
  started_at : Option String
  html_url : String
deriving DecidableEq

/-- The REST side of the upstream: pull-request-triggered workflow runs
per (owner, repo), and jobs per (owner, repo, run id). -/
structure RestWorld where
  runsFor : String → String → List WorkflowRun
  jobsFor : String → String → Int → List RawJob

/-- `attachJobs(pr)`: returns the (possibly) updated PR together with the
number of paginated REST lookups it issued.  A PR without a head SHA
returns immediately; otherwise the matching run is searched for and, when
found, that run's jobs are normalized onto `pr.jobs`. -/
def attachJobsM (w : RestWorld) (pr : PRBasic) : PRBasic × Nat :=
  match pr.headSha with
  | none => (pr, 0)
  | some sha =>
    let runs := w.runsFor pr.repo.owner pr.repo.name
    match runs.find? (fun r =>
        decide (r.head_sha = sha) ||
          (match r.pull_requests with
           | some ps => ps.any fun x => decide (x = pr.number)
           | none => false)) with
    | none => (pr, 1)
    | some run =>
      let jobs := w.jobsFor pr.repo.owner pr.repo.name run.id
      ({ pr with
          jobs := some (jobs.map fun j =>
            { name := j.name, status := j.status.getD "queued",
              conclusion := j.conclusion, started_at := j.started_at,
              html_url := j.html_url }) }, 2)

/-- The in-place mutation of the selected objects, reflected onto a
bucket: an element is replaced by its enriched version exactly when its
tagged occurrence was selected into `running`. -/
def enrichBucket (w : RestWorld) (runningT : List (Bucket × PRBasic))
    (tag : Bucket) (bucket : List PRBasic) : List PRBasic :=
  bucket.map fun p => if (tag, p) ∈ runningT then (attachJobsM w p).1 else p

/-! ## PR Aggregator: request handler -/

/-- Environment of the PR endpoint. -/
structure PREnv where
  GITHUB_TOKEN : Option String
  GH_QUERY_ORGS : Option String
  GH_CACHE_TTL : Option String
  hasCache : Bool

/-- The three deduplicated buckets of the response payload. -/
structure PRBuckets where
  review : List PRBasic
  mine : List PRBasic
  assigned : List PRBasic
deriving DecidableEq

/-- The response payload of the PR endpoint. -/
structure PRData where
  generatedAt : Int
  scopeOrgs : List String
  buckets : PRBuckets
deriving DecidableEq

/-- The distinguishable response bodies of the PR endpoint: the plain-text
missing-token response, a cached JSON payload, or a fresh one. -/
inductive PRBody where
  | missingTokenText
  | cachedJson (d : PRData)
  | freshJson (d : PRData)
deriving DecidableEq

/-- Observable result of one PR-endpoint request (when no exception
escapes): status, body, `x-cache` header, upstream call counters, the
number of fetch-and-store cycles run, and the cache writes. -/
structure PRResult where
  status : Nat
  body : PRBody
  xcache : Option String
  graphqlCalls : Nat
  restCalls : Nat
  fetchStoreCycles : Nat
  cachePuts : List (PutRecord PRData)
deriving DecidableEq

/-- `Promise.all` over `orgsToQuery`, each org running its three bucket
searches: the first upstream rejection rejects the whole batch. -/
def fetchAllOrgs (fetchB : String → Except String (List PRBasic)) :
    List (Option String) →
      Except String (List (List PRBasic × List PRBasic × List PRBasic))
  | [] => .ok []
  | org :: rest =>
    let qs := buildQueries org
    match fetchB qs.mine with
    | .error e => .error e
    | .ok mine =>
      match fetchB qs.review with
      | .error e => .error e
      | .ok review =>
        match fetchB qs.assigned with
        | .error e => .error e
        | .ok assigned =>
          match fetchAllOrgs fetchB rest with
          | .error e => .error e
          | .ok others => .ok ((mine, review, assigned) :: others)

/-- The `onRequest` handler.  There is no try/catch around the fetch
path, so an upstream failure propagates out of the handler; the embedding
returns it as `Except.error`.  `fetchB` is one GraphQL search call
(already normalized by `fetchBucket`), `w` the REST world used by
`attachJobs`. -/
def prOnRequest (env : PREnv) (cache : KV PRData) (now : Int)
    (fetchB : String → Except String (List PRBasic)) (w : RestWorld) :
    Except String PRResult :=
  if falsyStr env.GITHUB_TOKEN then
    .ok { status := 500, body := .missingTokenText, xcache := none,
          graphqlCalls := 0, restCalls := 0, fetchStoreCycles := 0, cachePuts := [] }
  else
    let scopeOrgs := parseOrgs env.GH_QUERY_ORGS
    let cacheKey := cacheKeyOf scopeOrgs
    match (if env.hasCache then cache.get cacheKey else none) with
    | some d =>
      .ok { status := 200, body := .cachedJson d, xcache := some "HIT",
            graphqlCalls := 0, restCalls := 0, fetchStoreCycles := 0, cachePuts := [] }
    | none =>
      match fetchAllOrgs fetchB (orgsToQueryOf scopeOrgs) with
      | .error e => .error e
      | .ok results =>
        let mine := dedupById (results.map (·.1)).flatten
        let review := dedupById (results.map (·.2.1)).flatten
        let assigned := dedupById (results.map (·.2.2)).flatten
        let runningT := runningOf mine review assigned
        let data : PRData :=
          { generatedAt := now, scopeOrgs := scopeOrgs,
            buckets :=
              { review := enrichBucket w runningT .review review,
                mine := enrichBucket w runningT .mine mine,
                assigned := enrichBucket w runningT .assigned assigned } }
        .ok { status := 200, body := .freshJson data, xcache := some "MISS",
              graphqlCalls := 3 * (orgsToQueryOf scopeOrgs).length,
              restCalls := ((runningT.map fun tp => (attachJobsM w tp.2).2).sum),
              fetchStoreCycles := 1,
              cachePuts :=
                if env.hasCache then [⟨cacheKey, data, ttlOf env.GH_CACHE_TTL⟩]
                else [] }

/-! ## Shared concrete sample values for witnesses -/

/-- A sample upstream Linear issue node. -/
def sampleRaw (ident : String) (prio : Option Int) (upd : Int) : RawIssue :=
  { id := ident, identifier := ident, title := "t", url := "u",
    createdAt := 0, updatedAt := upd, priority := prio,
    state := ⟨"Todo", "unstarted", "#888"⟩, project := none, assignee := none,
    team := ⟨"Team", "T"⟩ }

/-- Issue A of the spec's end-to-end example: priority 2, updated at T2. -/
def rawA : RawIssue := sampleRaw "A" (some 2) 2

/-- Issue B of the spec's end-to-end example: priority 0, updated later. -/
def rawB : RawIssue := sampleRaw "B" (some 0) 3

/-- An issue-route environment with a token and no cache binding. -/
def linearEnvNoCache : LinearEnv := ⟨some "tok", none, false⟩

/-- An issue-route environment with a token and no configured token ttl,
cache binding present. -/
def linearEnvCache : LinearEnv := ⟨some "tok", none, true⟩

/-- An issue-route environment without a token. -/
def linearEnvNoToken : LinearEnv := ⟨none, none, true⟩

/-- An empty issue-route KV store. -/
def emptyLinearKV : KV LinearData := ⟨fun _ => none⟩

/-- A PR-endpoint environment with a token, no org scope, no cache. -/
def prEnvPlain : PREnv := ⟨some "tok", none, none, false⟩

/-- A PR-endpoint environment with a token, no org scope, cache present. -/
def prEnvCache : PREnv := ⟨some "tok", none, none, true⟩

/-- A PR-endpoint environment without a token. -/
def prEnvNoToken : PREnv := ⟨none, none, none, true⟩

/-- An empty PR-endpoint KV store. -/
def emptyPRKV : KV PRData := ⟨fun _ => none⟩

/-- A search function whose every query succeeds with no results. -/
def okFetch : String → Except String (List PRBasic) := fun _ => .ok []

/-- A search function whose every query rejects. -/
def failingFetch : String → Except String (List PRBasic) :=
  fun _ => .error "GraphQL request failed"

/-- A REST world with no workflow runs and no jobs. -/
def emptyRestWorld : RestWorld := ⟨fun _ _ => [], fun _ _ _ => []⟩

/-- A sample PR value. -/
def samplePR (ident : String) (num : Int) (roll : Option Rollup)
    (sha : Option String) : PRBasic :=
  { id := ident, number := num, title := "t", url := "u",
    repo := ⟨"octo", "repo", "ru"⟩, author := none,
    updatedAt := "2024-01-01T00:00:00Z", createdAt := "2024-01-01T00:00:00Z",
    isDraft := false, labels := [], headSha := sha,
    status := { rollup := roll, checks := [] }, jobs := none }

/-! ## Claim theorems -/

/-- Claim C7: the priority lookup maps 0..4 to the five fixed display
names, every integer outside 0..4 to "Unknown", and an absent upstream
priority yields a `null` priority object rather than an "Unknown" one. -/
theorem priority_mapping :
    (priorityDisplayName 0 = "No priority" ∧ priorityDisplayName 1 = "Urgent" ∧
      priorityDisplayName 2 = "High" ∧ priorityDisplayName 3 = "Normal" ∧
      priorityDisplayName 4 = "Low")
    ∧ (∀ v : Int, v < 0 ∨ 5 ≤ v → priorityDisplayName v = "Unknown")
    ∧ (∀ i : RawIssue, i.priority = none → (toIssue i).priority = none)
    ∧ (∀ (i : RawIssue) (v : Int), i.priority = some v →
        (toIssue i).priority = some ⟨v, priorityDisplayName v⟩) := by
  refine ⟨⟨rfl, rfl, rfl, rfl, rfl⟩, ?_, ?_, ?_⟩
  · intro v hv
    unfold priorityDisplayName
    rcases hv with hv | hv
    · rw [if_pos hv]
    · rw [if_neg (by omega)]
      apply List.getD_eq_default
      have : priorityNames.length = 5 := rfl
      omega
  · intro i h
    simp [toIssue, h]
  · intro i v h
    simp [toIssue, h]

/-- Witness for C7, applying `priority_mapping` at concrete inputs. -/
theorem priority_mapping_witness :
    priorityDisplayName 7 = "Unknown" ∧ priorityDisplayName (-2) = "Unknown" ∧
    (toIssue (sampleRaw "N" none 0)).priority = none ∧
    (toIssue (sampleRaw "X" (some 9) 0)).priority = some ⟨9, priorityDisplayName 9⟩ :=
  ⟨priority_mapping.2.1 7 (by omega), priority_mapping.2.1 (-2) (by omega),
    priority_mapping.2.2.1 (sampleRaw "N" none 0) rfl,
    priority_mapping.2.2.2 (sampleRaw "X" (some 9) 0) 9 rfl⟩

/-- Claim C6: a request to either endpoint with no configured access
token yields a 500 (structured JSON body for the issue endpoint, plain
text for the PR endpoint) with zero upstream calls. -/
theorem missing_token_500 :
    (∀ (env : LinearEnv) (cache : KV LinearData) (now : Int) (out : FetchOutcome),
      env.LINEAR_TOKEN = none →
      linearGET env cache now out =
        { status := 500, body := .missingToken, xcache := none,
          upstreamCalls := 0, cachePuts := [] })
    ∧ (∀ (env : PREnv) (cache : KV PRData) (now : Int)
        (fetchB : String → Except String (List PRBasic)) (w : RestWorld),
      env.GITHUB_TOKEN = none →
      prOnRequest env cache now fetchB w =
        .ok { status := 500, body := .missingTokenText, xcache := none,
              graphqlCalls := 0, restCalls := 0, fetchStoreCycles := 0,
              cachePuts := [] }) := by
  constructor
  · intro env cache now out h
    unfold linearGET
    rw [h]
    rfl
  · intro env cache now fetchB w h
    unfold prOnRequest
    rw [h]
    rfl

/-- Witness for C6 at concrete environments. -/
theorem missing_token_500_witness :
    linearGET linearEnvNoToken emptyLinearKV 0 (.ok []) =
      { status := 500, body := .missingToken, xcache := none,
        upstreamCalls := 0, cachePuts := [] } ∧
    prOnRequest prEnvNoToken emptyPRKV 0 okFetch emptyRestWorld =
      .ok { status := 500, body := .missingTokenText, xcache := none,
            graphqlCalls := 0, restCalls := 0, fetchStoreCycles := 0,
            cachePuts := [] } :=
  ⟨missing_token_500.1 linearEnvNoToken emptyLinearKV 0 (.ok []) rfl,
    missing_token_500.2 prEnvNoToken emptyPRKV 0 okFetch emptyRestWorld rfl⟩

/-- Claim C1: every issue list produced on a cache miss is sorted
ascending by effective priority rank (999 for a 0 or absent priority,
`n` for a priority `n ≥ 1`), with ties broken by non-increasing
`updatedAt`. -/
theorem issue_sort_policy :
    (∀ i : Issue,
      (i.priority = none → rankOf i = 999) ∧
      ∀ p : IssuePriority, i.priority = some p →
        (p.value = 0 → rankOf i = 999) ∧ (1 ≤ p.value → rankOf i = p.value))
    ∧ ∀ (env : LinearEnv) (cache : KV LinearData) (now : Int)
        (out : FetchOutcome) (d : LinearData),
        (linearGET env cache now out).body = .fresh d →
        d.issues.Sorted specSortRel := by
  constructor
  · intro i
    constructor
    · intro h
      simp [rankOf, h]
    · intro p hp
      constructor
      · intro h0
        simp [rankOf, hp, h0]
      · intro h1
        simp only [rankOf, hp, Option.map_some', Option.getD_some]
        rw [if_neg (by omega)]
  · intro env cache now out d h
    unfold linearGET at h
    split at h
    · simp at h
    · split at h
      · simp at h
      · split at h
        · simp at h
        · simp only [LinearBody.fresh.injEq] at h
          subst h
          exact sortIssues_sorted _

/-- Witness for C1: the spec's end-to-end example (A priority 2 updated
at 2, B priority 0 updated at 3) on a concrete miss-path request; A's
rank 2 beats B's rank 999 despite B being more recently updated. -/
theorem issue_sort_policy_witness :
    rankOf (toIssue rawB) = 999 ∧ rankOf (toIssue rawA) = 2 ∧
    (linearGET linearEnvNoCache emptyLinearKV 0 (.ok [rawB, rawA])).body =
      LinearBody.fresh (linearMissPayload 0 [rawB, rawA]) ∧
    (linearMissPayload 0 [rawB, rawA]).issues.Sorted specSortRel ∧
    (linearMissPayload 0 [rawB, rawA]).issues.map Issue.identifier = ["A", "B"] :=
  ⟨((issue_sort_policy.1 (toIssue rawB)).2 ⟨0, priorityDisplayName 0⟩ rfl).1 rfl,
    ((issue_sort_policy.1 (toIssue rawA)).2 ⟨2, priorityDisplayName 2⟩ rfl).2 (by decide),
    rfl,
    issue_sort_policy.2 linearEnvNoCache emptyLinearKV 0 (.ok [rawB, rawA])
      (linearMissPayload 0 [rawB, rawA]) rfl,
    by decide⟩

/-! ## Enrichment-selection lemmas -/

theorem taggedConcat_map_snd (m r a : List PRBasic) :
    (taggedConcat m r a).map (·.2) = m ++ r ++ a := by
  unfold taggedConcat
  simp

theorem runningPRsOf_eq (m r a : List PRBasic) :
    runningPRsOf m r a = (candidatesOf m r a).take 8 := by
  unfold runningPRsOf runningOf candidatesOf
  rw [List.map_take]
  congr 1
  have h := List.filter_map (p := pendingPR) (f := fun tp : Bucket × PRBasic => tp.2)
    (taggedConcat m r a)
  rw [taggedConcat_map_snd] at h
  rw [h]
  rfl

theorem length_filter_taggedConcat (m r a : List PRBasic) :
    ((taggedConcat m r a).filter fun tp => pendingPR tp.2).length
      = (candidatesOf m r a).length := by
  have h := congrArg List.length (runningPRsOf_eq m r a)
  unfold runningPRsOf runningOf at h
  rw [List.length_map, List.length_take, List.length_take] at h
  have hle : ∀ n : Nat, min 8 n ≤ n := fun n => Nat.min_le_right 8 n
  -- compare lengths directly via the map-filter commutation instead
  have h2 := congrArg List.length
    (List.filter_map (p := pendingPR) (f := fun tp : Bucket × PRBasic => tp.2)
      (taggedConcat m r a))
  rw [taggedConcat_map_snd, List.length_map] at h2
  unfold candidatesOf
  rw [h2]
  rfl

/-- Claim C2: the PRs selected for job enrichment come from the three
deduplicated buckets, all have rollup exactly PENDING, appear in the
order of the concatenation mine ++ review ++ assigned (no re-sorting),
and number at most 8. -/
theorem enrichment_selection :
    ∀ mineAll reviewAll assignedAll : List PRBasic,
      (runningPRsOf (dedupById mineAll) (dedupById reviewAll)
          (dedupById assignedAll)).length ≤ 8
      ∧ (∀ p ∈ runningPRsOf (dedupById mineAll) (dedupById reviewAll)
            (dedupById assignedAll),
          pendingPR p = true ∧
            (p ∈ dedupById mineAll ∨ p ∈ dedupById reviewAll ∨ p ∈ dedupById assignedAll))
      ∧ (runningPRsOf (dedupById mineAll) (dedupById reviewAll)
          (dedupById assignedAll)).Sublist
          (dedupById mineAll ++ dedupById reviewAll ++ dedupById assignedAll) := by
  intro mineAll reviewAll assignedAll
  rw [runningPRsOf_eq]
  refine ⟨?_, ?_, ?_⟩
  · rw [List.length_take]
    exact Nat.min_le_left _ _
  · intro p hp
    have hp' : p ∈ candidatesOf (dedupById mineAll) (dedupById reviewAll)
        (dedupById assignedAll) := List.take_subset _ _ hp
    unfold candidatesOf at hp'
    rw [List.mem_filter] at hp'
    refine ⟨hp'.2, ?_⟩
    have := hp'.1
    simp only [List.mem_append] at this
    tauto
  · exact (List.take_sublist _ _).trans (List.filter_sublist _)

/-- Witness for C2: one pending PR in each bucket, one non-pending. -/
theorem enrichment_selection_witness :
    (runningPRsOf (dedupById [samplePR "a" 1 (some .PENDING) none])
        (dedupById [samplePR "b" 2 (some .SUCCESS) none])
        (dedupById [samplePR "c" 3 (some .PENDING) none])).length ≤ 8 ∧
    (∀ p ∈ runningPRsOf (dedupById [samplePR "a" 1 (some .PENDING) none])
        (dedupById [samplePR "b" 2 (some .SUCCESS) none])
        (dedupById [samplePR "c" 3 (some .PENDING) none]),
      pendingPR p = true ∧
        (p ∈ dedupById [samplePR "a" 1 (some .PENDING) none] ∨
          p ∈ dedupById [samplePR "b" 2 (some .SUCCESS) none] ∨
          p ∈ dedupById [samplePR "c" 3 (some .PENDING) none])) ∧
    (runningPRsOf (dedupById [samplePR "a" 1 (some .PENDING) none])
        (dedupById [samplePR "b" 2 (some .SUCCESS) none])
        (dedupById [samplePR "c" 3 (some .PENDING) none])).Sublist
        (dedupById [samplePR "a" 1 (some .PENDING) none] ++
          dedupById [samplePR "b" 2 (some .SUCCESS) none] ++
          dedupById [samplePR "c" 3 (some .PENDING) none]) :=
  enrichment_selection [samplePR "a" 1 (some .PENDING) none]
    [samplePR "b" 2 (some .SUCCESS) none] [samplePR "c" 3 (some .PENDING) none]

/-- Claim C9: candidates are taken from the concatenation of the three
buckets, not from a set of distinct ids: a pending PR present in both
mine and review contributes two candidate occurrences, the cap counts
occurrences, and (when the cap is not exceeded) both tagged occurrences
are selected and enriched independently. -/
theorem per_occurrence_candidates :
    ∀ (m r a : List PRBasic) (p : PRBasic), p ∈ m → p ∈ r → pendingPR p = true →
      2 ≤ (candidatesOf m r a).countP (fun q => decide (q = p))
      ∧ (runningPRsOf m r a).length = min 8 (candidatesOf m r a).length
      ∧ ((candidatesOf m r a).length ≤ 8 →
          (Bucket.mine, p) ∈ runningOf m r a ∧ (Bucket.review, p) ∈ runningOf m r a) := by
  intro m r a p hm hr hpend
  refine ⟨?_, ?_, ?_⟩
  · unfold candidatesOf
    rw [List.countP_filter]
    rw [List.append_assoc, List.countP_append, List.countP_append]
    have h1 : 0 < m.countP fun q => decide (q = p) && pendingPR q := by
      rw [List.countP_pos_iff]
      exact ⟨p, hm, by simp [hpend]⟩
    have h2 : 0 < r.countP fun q => decide (q = p) && pendingPR q := by
      rw [List.countP_pos_iff]
      exact ⟨p, hr, by simp [hpend]⟩
    omega
  · rw [runningPRsOf_eq, List.length_take]
  · intro hle
    have hall : runningOf m r a = (taggedConcat m r a).filter fun tp => pendingPR tp.2 := by
      unfold runningOf
      apply List.take_of_length_le
      rw [length_filter_taggedConcat]
      exact hle
    rw [hall]
    constructor
    · rw [List.mem_filter]
      refine ⟨?_, hpend⟩
      unfold taggedConcat
      refine List.mem_append_left _ (List.mem_append_left _ ?_)
      exact List.mem_map.mpr ⟨p, hm, rfl⟩
    · rw [List.mem_filter]
      refine ⟨?_, hpend⟩
      unfold taggedConcat
      refine List.mem_append_left _ (List.mem_append_right _ ?_)
      exact List.mem_map.mpr ⟨p, hr, rfl⟩

/-- Witness for C9: the same pending PR value present in both mine and
review, with a third bucket empty. -/
theorem per_occurrence_candidates_witness :
    2 ≤ (candidatesOf [samplePR "x" 1 (some .PENDING) none]
        [samplePR "x" 1 (some .PENDING) none] []).countP
        (fun q => decide (q = samplePR "x" 1 (some .PENDING) none))
    ∧ (runningPRsOf [samplePR "x" 1 (some .PENDING) none]
        [samplePR "x" 1 (some .PENDING) none] []).length
        = min 8 (candidatesOf [samplePR "x" 1 (some .PENDING) none]
            [samplePR "x" 1 (some .PENDING) none] []).length
    ∧ ((candidatesOf [samplePR "x" 1 (some .PENDING) none]
          [samplePR "x" 1 (some .PENDING) none] []).length ≤ 8 →
        (Bucket.mine, samplePR "x" 1 (some .PENDING) none)
            ∈ runningOf [samplePR "x" 1 (some .PENDING) none]
              [samplePR "x" 1 (some .PENDING) none] []
          ∧ (Bucket.review, samplePR "x" 1 (some .PENDING) none)
            ∈ runningOf [samplePR "x" 1 (some .PENDING) none]
              [samplePR "x" 1 (some .PENDING) none] []) :=
  per_occurrence_candidates [samplePR "x" 1 (some .PENDING) none]
    [samplePR "x" 1 (some .PENDING) none] [] (samplePR "x" 1 (some .PENDING) none)
    (List.mem_singleton.mpr rfl) (List.mem_singleton.mpr rfl) (by decide)

/-- Claim C10: a candidate with no head SHA makes `attachJobs` return
immediately (zero REST calls, `jobs` unchanged, hence still unset in the
response buckets), yet it still occupies an enrichment slot because the
slice to 8 happens before the head-SHA check. -/
theorem no_headsha_skips_rest :
    ∀ (w : RestWorld) (p : PRBasic) (m r a : List PRBasic)
      (runningT : List (Bucket × PRBasic)) (tag : Bucket),
      p.headSha = none →
      attachJobsM w p = (p, 0)
      ∧ (attachJobsM w p).1.jobs = p.jobs
      ∧ enrichBucket w runningT tag [p] = [p]
      ∧ (pendingPR p = true → p ∈ runningPRsOf (p :: m) r a) := by
  intro w p m r a runningT tag h
  have h1 : attachJobsM w p = (p, 0) := by
    unfold attachJobsM
    rw [h]
  refine ⟨h1, by rw [h1], ?_, ?_⟩
  · unfold enrichBucket
    simp only [List.map_cons, List.map_nil]
    split
    · rw [h1]
    · rfl
  · intro hpend
    rw [runningPRsOf_eq]
    unfold candidatesOf
    rw [List.cons_append, List.cons_append, List.filter_cons_of_pos hpend]
    have ht : (p :: ((m ++ r ++ a).filter pendingPR)).take 8
        = p :: ((m ++ r ++ a).filter pendingPR).take 7 := rfl
    rw [ht]
    exact List.mem_cons_self _ _

/-! ## Cache discipline and error handling -/

/-- Claim C5: with a cache binding present, an unexpired entry short-
circuits the request (cached payload returned, HIT tag, zero upstream
calls); an absent or expired entry triggers exactly one fetch-and-store
cycle whose fresh result is written under the same key and returned with
a MISS tag.  (The PR conjunct assumes the fetch phase succeeds; on an
upstream failure no store happens — see the error-handling claims.) -/
theorem cache_discipline :
    ∀ (envL : LinearEnv) (cL : KV LinearData) (now : Int) (out : FetchOutcome)
      (envP : PREnv) (cP : KV PRData)
      (fetchB : String → Except String (List PRBasic)) (w : RestWorld),
    (envL.hasCache = true → falsyStr envL.LINEAR_TOKEN = false →
      ∀ v, cL.get linearCacheKey = some v →
      linearGET envL cL now out =
        { status := 200, body := .cached v, xcache := some "HIT",
          upstreamCalls := 0, cachePuts := [] })
    ∧ (envL.hasCache = true → falsyStr envL.LINEAR_TOKEN = false →
      cL.get linearCacheKey = none →
      ∀ raws, out = .ok raws →
      linearGET envL cL now out =
        { status := 200, body := .fresh (linearMissPayload now raws),
          xcache := some "MISS", upstreamCalls := 1,
          cachePuts := [⟨linearCacheKey, linearMissPayload now raws,
            ttlOf envL.LINEAR_CACHE_TTL⟩] })
    ∧ (envP.hasCache = true → falsyStr envP.GITHUB_TOKEN = false →
      ∀ d, cP.get (cacheKeyOf (parseOrgs envP.GH_QUERY_ORGS)) = some d →
      prOnRequest envP cP now fetchB w =
        .ok { status := 200, body := .cachedJson d, xcache := some "HIT",
              graphqlCalls := 0, restCalls := 0, fetchStoreCycles := 0,
              cachePuts := [] })
    ∧ (envP.hasCache = true → falsyStr envP.GITHUB_TOKEN = false →
      cP.get (cacheKeyOf (parseOrgs envP.GH_QUERY_ORGS)) = none →
      ∀ results,
        fetchAllOrgs fetchB (orgsToQueryOf (parseOrgs envP.GH_QUERY_ORGS)) = .ok results →
      ∃ (r : PRResult) (d : PRData),
        prOnRequest envP cP now fetchB w = .ok r ∧ r.status = 200 ∧
        r.body = .freshJson d ∧ r.xcache = some "MISS" ∧
        r.fetchStoreCycles = 1 ∧
        r.cachePuts = [⟨cacheKeyOf (parseOrgs envP.GH_QUERY_ORGS), d,
          ttlOf envP.GH_CACHE_TTL⟩]) := by
  intro envL cL now out envP cP fetchB w
  refine ⟨?_, ?_, ?_, ?_⟩
  · intro hc ht v hv
    unfold linearGET
    rw [if_neg (by rw [ht]; exact Bool.false_ne_true), hc]
    simp only [if_true, hv]
  · intro hc ht hv raws hout
    unfold linearGET
    rw [if_neg (by rw [ht]; exact Bool.false_ne_true), hc]
    simp only [if_true, hv, hout]
    rfl
  · intro hc ht d hd
    unfold prOnRequest
    rw [if_neg (by rw [ht]; exact Bool.false_ne_true), hc]
    simp only [if_true, hd]
  · intro hc ht hv results hres
    unfold prOnRequest
    rw [if_neg (by rw [ht]; exact Bool.false_ne_true), hc]
    simp only [if_true, hv, hres, hc]
    exact ⟨_, _, rfl, rfl, rfl, rfl, rfl, rfl⟩

/-- A Linear KV store holding one payload under the route's fixed key. -/
def oneLinearKV : KV LinearData :=
  ⟨fun k => if k = linearCacheKey then some ⟨7, []⟩ else none⟩

/-- A PR KV store holding one payload under the unscoped key. -/
def onePRKV : KV PRData :=
  ⟨fun k => if k = "overview:all" then some ⟨7, [], ⟨[], [], []⟩⟩ else none⟩

/-- Witness for C5: a concrete hit and a concrete miss on each endpoint. -/
theorem cache_discipline_witness :
    linearGET linearEnvCache oneLinearKV 0 (.thrown "net down") =
      { status := 200, body := .cached ⟨7, []⟩, xcache := some "HIT",
        upstreamCalls := 0, cachePuts := [] } ∧
    linearGET linearEnvCache emptyLinearKV 0 (.ok [rawA]) =
      { status := 200, body := .fresh (linearMissPayload 0 [rawA]),
        xcache := some "MISS", upstreamCalls := 1,
        cachePuts := [⟨linearCacheKey, linearMissPayload 0 [rawA], "90"⟩] } ∧
    prOnRequest prEnvCache onePRKV 0 okFetch emptyRestWorld =
      .ok { status := 200, body := .cachedJson ⟨7, [], ⟨[], [], []⟩⟩,
            xcache := some "HIT", graphqlCalls := 0, restCalls := 0,
            fetchStoreCycles := 0, cachePuts := [] } ∧
    (∃ (r : PRResult) (d : PRData),
      prOnRequest prEnvCache emptyPRKV 0 okFetch emptyRestWorld = .ok r ∧
      r.status = 200 ∧ r.body = .freshJson d ∧ r.xcache = some "MISS" ∧
      r.fetchStoreCycles = 1 ∧
      r.cachePuts = [⟨cacheKeyOf (parseOrgs prEnvCache.GH_QUERY_ORGS), d,
        ttlOf prEnvCache.GH_CACHE_TTL⟩]) :=
  ⟨(cache_discipline linearEnvCache oneLinearKV 0 (.thrown "net down")
      prEnvCache onePRKV okFetch emptyRestWorld).1 rfl rfl ⟨7, []⟩ (by decide),
    (cache_discipline linearEnvCache emptyLinearKV 0 (.ok [rawA])
      prEnvCache onePRKV okFetch emptyRestWorld).2.1 rfl rfl rfl [rawA] rfl,
    (cache_discipline linearEnvCache oneLinearKV 0 (.ok [])
      prEnvCache onePRKV okFetch emptyRestWorld).2.2.1 rfl rfl
      ⟨7, [], ⟨[], [], []⟩⟩ (by decide),
    (cache_discipline linearEnvCache oneLinearKV 0 (.ok [])
      prEnvCache emptyPRKV okFetch emptyRestWorld).2.2.2 rfl rfl rfl
      [([], [], [])] rfl⟩

/-- Counterexample to claim C3: on the PR endpoint an upstream GraphQL
failure is NOT converted into a 500 response — there is no try/catch in
`onRequest`, so the rejection escapes the handler to the platform (here:
a token is configured, no cache binding, and every search query rejects). -/
theorem pr_upstream_error_escapes :
    prOnRequest prEnvPlain emptyPRKV 0 failingFetch emptyRestWorld =
      .error "GraphQL request failed" ∧
    ∀ r : PRResult,
      prOnRequest prEnvPlain emptyPRKV 0 failingFetch emptyRestWorld ≠ .ok r := by
  have h1 : prOnRequest prEnvPlain emptyPRKV 0 failingFetch emptyRestWorld
      = .error "GraphQL request failed" := rfl
  exact ⟨h1, fun r h => Except.noConfusion (h1.symm.trans h)⟩

/-- Claim C3 as amended: the issue endpoint catches every upstream
failure (thrown fetch, non-success HTTP status, GraphQL error payload)
at the top level and converts it into a 500 response with a structured
error body carrying the failure detail, returning no partial payload;
the PR endpoint, by contrast, does not catch upstream errors — on any
rejection of its fetch path the exception propagates out of the handler
(only its missing-token case is handled). -/
theorem upstream_error_handling :
    (∀ (env : LinearEnv) (cache : KV LinearData) (now : Int)
       (out : FetchOutcome) (e : String),
      falsyStr env.LINEAR_TOKEN = false →
      (if env.hasCache then cache.get linearCacheKey else none) = none →
      linearFetch out = .error e →
      (linearGET env cache now out).status = 500 ∧
      (linearGET env cache now out).body = .fetchFailed e ∧
      (linearGET env cache now out).cachePuts = [])
    ∧ (∀ out : FetchOutcome, (∀ raws, out ≠ .ok raws) →
        ∃ e, linearFetch out = .error e)
    ∧ (∀ (env : PREnv) (cache : KV PRData) (now : Int)
        (fetchB : String → Except String (List PRBasic)) (w : RestWorld) (e : String),
      falsyStr env.GITHUB_TOKEN = false →
      (if env.hasCache then cache.get (cacheKeyOf (parseOrgs env.GH_QUERY_ORGS))
        else none) = none →
      fetchAllOrgs fetchB (orgsToQueryOf (parseOrgs env.GH_QUERY_ORGS)) = .error e →
      prOnRequest env cache now fetchB w = .error e) := by
  refine ⟨?_, ?_, ?_⟩
  · intro env cache now out e ht hc hf
    unfold linearGET
    rw [if_neg (by rw [ht]; exact Bool.false_ne_true), hc]
    simp [hf]
  · intro out hout
    match out with
    | .thrown m => exact ⟨m, rfl⟩
    | .httpError s => exact ⟨"Linear API error: " ++ toString s, rfl⟩
    | .gqlErrors es => exact ⟨"Linear GraphQL errors: " ++ es, rfl⟩
    | .ok raws => exact absurd rfl (hout raws)
  · intro env cache now fetchB w e ht hc hf
    unfold prOnRequest
    rw [if_neg (by rw [ht]; exact Bool.false_ne_true)]
    simp only [hc, hf]

/-- Witness for the amended C3 at concrete inputs: a non-success HTTP
status on the issue endpoint becomes a 500 with the failure detail, and
the rejecting PR fetch path propagates its error. -/
theorem upstream_error_handling_witness :
    (linearGET linearEnvNoCache emptyLinearKV 0 (.httpError 502)).status = 500 ∧
    (linearGET linearEnvNoCache emptyLinearKV 0 (.httpError 502)).body =
      .fetchFailed "Linear API error: 502" ∧
    (∃ e, linearFetch (.gqlErrors "boom") = .error e) ∧
    prOnRequest prEnvPlain emptyPRKV 0 failingFetch emptyRestWorld =
      .error "GraphQL request failed" :=
  ⟨(upstream_error_handling.1 linearEnvNoCache emptyLinearKV 0 (.httpError 502)
      "Linear API error: 502" rfl rfl rfl).1,
    (upstream_error_handling.1 linearEnvNoCache emptyLinearKV 0 (.httpError 502)
      "Linear API error: 502" rfl rfl rfl).2.1,
    upstream_error_handling.2.1 (.gqlErrors "boom") (fun raws h => by cases h),
    upstream_error_handling.2.2 prEnvPlain emptyPRKV 0 failingFetch emptyRestWorld
      "GraphQL request failed" rfl rfl rfl⟩

/-! ## Deduplication lemmas (JS `Map` characterization) -/

/-- Keys of an association list, in order. -/
def alKeys (acc : List (String × PRBasic)) : List String := acc.map (·.1)

/-- First-occurrence deduplication of a key list, relative to keys
already seen. -/
def firstDedupAux (seen : List String) : List String → List String
  | [] => []
  | x :: xs =>
    if x ∈ seen then firstDedupAux seen xs else x :: firstDedupAux (x :: seen) xs

/-- First-occurrence deduplication of a key list. -/
def firstDedup (xs : List String) : List String := firstDedupAux [] xs

theorem firstDedupAux_congr : ∀ (xs seen seen' : List String),
    (∀ a, a ∈ seen ↔ a ∈ seen') → firstDedupAux seen xs = firstDedupAux seen' xs
  | [], _, _, _ => rfl
  | x :: xs, seen, seen', h => by
    unfold firstDedupAux
    by_cases hx : x ∈ seen
    · rw [if_pos hx, if_pos ((h x).mp hx), firstDedupAux_congr xs seen seen' h]
    · rw [if_neg hx, if_neg (fun c => hx ((h x).mpr c)),
        firstDedupAux_congr xs (x :: seen) (x :: seen') (by intro a; simp [h a])]

theorem mem_firstDedupAux : ∀ (xs seen : List String) (a : String),
    a ∈ firstDedupAux seen xs ↔ a ∈ xs ∧ a ∉ seen
  | [], seen, a => by simp [firstDedupAux]
  | x :: xs, seen, a => by
    unfold firstDedupAux
    by_cases hx : x ∈ seen
    · rw [if_pos hx, mem_firstDedupAux xs seen a]
      by_cases hax : a = x
      · subst hax; simp [hx]
      · simp [hax]
    · rw [if_neg hx]
      by_cases hax : a = x
      · subst hax; simp [hx]
      · simp [List.mem_cons, hax, mem_firstDedupAux xs (x :: seen) a]

theorem nodup_firstDedupAux : ∀ (xs seen : List String),
    (firstDedupAux seen xs).Nodup
  | [], _ => List.nodup_nil
  | x :: xs, seen => by
    unfold firstDedupAux
    by_cases hx : x ∈ seen
    · rw [if_pos hx]; exact nodup_firstDedupAux xs seen
    · rw [if_neg hx]
      refine List.nodup_cons.mpr ⟨?_, nodup_firstDedupAux xs (x :: seen)⟩
      intro hmem
      exact ((mem_firstDedupAux xs (x :: seen) x).mp hmem).2 (List.mem_cons_self _ _)

theorem alKeys_mapSet (acc : List (String × PRBasic)) (k : String) (v : PRBasic) :
    alKeys (mapSet acc k v) =
      if k ∈ alKeys acc then alKeys acc else alKeys acc ++ [k] := by
  unfold mapSet alKeys
  by_cases h : (acc.any fun e => decide (e.1 = k)) = true
  · rw [if_pos h]
    have hmem : k ∈ acc.map (·.1) := by
      rw [List.any_eq_true] at h
      obtain ⟨e, he, hek⟩ := h
      rw [List.mem_map]
      exact ⟨e, he, by simpa using hek⟩
    rw [if_pos hmem, List.map_map]
    apply List.map_congr_left
    intro e _
    by_cases hek : e.1 = k
    · simp [hek]
    · simp [hek]
  · rw [if_neg h]
    have hmem : k ∉ acc.map (·.1) := by
      intro hk
      apply h
      rw [List.any_eq_true]
      rw [List.mem_map] at hk
      obtain ⟨e, he, hek⟩ := hk
      exact ⟨e, he, by simpa using hek⟩
    rw [if_neg hmem, List.map_append]
    rfl

/-- The fold that builds the `Map`, starting from an arbitrary
association list. -/
def mapFoldFrom (acc : List (String × PRBasic)) (l : List PRBasic) :
    List (String × PRBasic) :=
  l.foldl (fun acc pr => mapSet acc pr.id pr) acc

theorem mapFromEntries_eq_mapFoldFrom (l : List PRBasic) :
    mapFromEntries l = mapFoldFrom [] l := rfl

theorem alKeys_mapFoldFrom : ∀ (l : List PRBasic) (acc : List (String × PRBasic)),
    alKeys (mapFoldFrom acc l)
      = alKeys acc ++ firstDedupAux (alKeys acc) (l.map (·.id))
  | [], acc => by simp [mapFoldFrom, firstDedupAux]
  | p :: l, acc => by
    unfold mapFoldFrom
    rw [List.foldl_cons, List.map_cons]
    unfold firstDedupAux
    have ih := alKeys_mapFoldFrom l (mapSet acc p.id p)
    unfold mapFoldFrom at ih
    by_cases h : p.id ∈ alKeys acc
    · rw [if_pos h, ih, alKeys_mapSet, if_pos h]
    · rw [if_neg h, ih, alKeys_mapSet, if_neg h,
        firstDedupAux_congr (l.map (·.id)) (alKeys acc ++ [p.id])
          (p.id :: alKeys acc) (by intro a; simp [or_comm])]
      simp

theorem alKeys_mapFromEntries (l : List PRBasic) :
    alKeys (mapFromEntries l) = firstDedup (l.map (·.id)) := by
  rw [mapFromEntries_eq_mapFoldFrom, alKeys_mapFoldFrom]
  rfl

/-- Value lookup in the association list (`find?` on the key). -/
def lookupK (acc : List (String × PRBasic)) (k : String) : Option PRBasic :=
  (acc.find? fun e => decide (e.1 = k)).map (·.2)

theorem lookupK_nil (k : String) : lookupK [] k = none := rfl

theorem lookupK_cons (e : String × PRBasic) (acc : List (String × PRBasic))
    (k : String) :
    lookupK (e :: acc) k = if e.1 = k then some e.2 else lookupK acc k := by
  unfold lookupK
  rw [List.find?_cons]
  by_cases h : e.1 = k
  · simp [h]
  · simp [h]

theorem lookupK_append_single : ∀ (acc : List (String × PRBasic)) (k : String)
    (v : PRBasic), (∀ e ∈ acc, e.1 ≠ k) → lookupK (acc ++ [(k, v)]) k = some v
  | [], k, v, _ => by
    rw [List.nil_append, lookupK_cons]
    simp
  | e :: acc, k, v, h => by
    rw [List.cons_append, lookupK_cons,
      if_neg (h e (List.mem_cons_self _ _))]
    exact lookupK_append_single acc k v fun e' he' => h e' (List.mem_cons_of_mem _ he')

theorem lookupK_mapSet_self : ∀ (acc : List (String × PRBasic)) (k : String)
    (v : PRBasic), lookupK (mapSet acc k v) k = some v := by
  intro acc k v
  unfold mapSet
  by_cases h : (acc.any fun e => decide (e.1 = k)) = true
  · rw [if_pos h]
    induction acc with
    | nil => simp at h
    | cons e acc ih =>
      rw [List.map_cons]
      by_cases hek : e.1 = k
      · rw [if_pos hek, lookupK_cons]
        simp [hek]
      · rw [if_neg hek, lookupK_cons, if_neg hek]
        apply ih
        rw [List.any_eq_true] at h ⊢
        obtain ⟨e', he', hk'⟩ := h
        rcases List.mem_cons.mp he' with rfl | hmem
        · exact absurd (by simpa using hk') hek
        · exact ⟨e', hmem, hk'⟩
  · rw [if_neg h]
    apply lookupK_append_single
    intro e he hek
    apply h
    rw [List.any_eq_true]
    exact ⟨e, he, by simpa using hek⟩

theorem lookupK_mapSet_other (acc : List (String × PRBasic)) (k k' : String)
    (v : PRBasic) (hne : k' ≠ k) :
    lookupK (mapSet acc k v) k' = lookupK acc k' := by
  unfold mapSet
  by_cases h : (acc.any fun e => decide (e.1 = k)) = true
  · rw [if_pos h]
    clear h
    induction acc with
    | nil => rfl
    | cons e acc ih =>
      rw [List.map_cons, lookupK_cons, lookupK_cons]
      by_cases hek : e.1 = k
      · rw [if_pos hek]
        have h1 : ((e.1, v).1 = k') = False := by
          simp only [eq_iff_iff, iff_false]
          intro hc
          exact hne (by rw [← hc, hek])
        rw [if_neg (by simp [h1]), if_neg (fun hc => hne (by rw [← hc, hek]))]
        exact ih
      · rw [if_neg hek]
        by_cases hek' : e.1 = k'
        · rw [if_pos hek', if_pos hek']
        · rw [if_neg hek', if_neg hek']
          exact ih
  · rw [if_neg h]
    clear h
    induction acc with
    | nil =>
      rw [List.nil_append, lookupK_cons,
        if_neg (show ¬(k, v).1 = k' from fun hc => hne hc.symm)]
    | cons e acc ih =>
      rw [List.cons_append, lookupK_cons, lookupK_cons]
      by_cases hek' : e.1 = k'
      · rw [if_pos hek', if_pos hek']
      · rw [if_neg hek', if_neg hek']
        exact ih

/-- The last element of `l` whose id is `k`, if any. -/
def lastWith (l : List PRBasic) (k : String) : Option PRBasic :=
  (l.filter fun q => decide (q.id = k)).getLast?

theorem lookupK_mapFoldFrom : ∀ (l : List PRBasic) (acc : List (String × PRBasic))
    (k : String),
    lookupK (mapFoldFrom acc l) k
      = match lastWith l k with
        | some v => some v
        | none => lookupK acc k
  | [], acc, k => by simp [mapFoldFrom, lastWith]
  | p :: l, acc, k => by
    unfold mapFoldFrom
    rw [List.foldl_cons]
    have ih := lookupK_mapFoldFrom l (mapSet acc p.id p) k
    unfold mapFoldFrom at ih
    rw [ih]
    unfold lastWith
    by_cases hpk : p.id = k
    · rw [List.filter_cons_of_pos (by simpa using hpk)]
      cases hl : (l.filter fun q => decide (q.id = k)).getLast? with
      | some v => rw [List.getLast?_cons, hl]; rfl
      | none =>
        rw [List.getLast?_cons, hl]
        simp only [Option.getD_none]
        subst hpk
        exact lookupK_mapSet_self acc p.id p
    · rw [List.filter_cons_of_neg (by simpa using hpk)]
      cases hl : (l.filter fun q => decide (q.id = k)).getLast? with
      | some v => rfl
      | none => exact lookupK_mapSet_other acc p.id k p (fun hc => hpk hc.symm)

theorem entries_snd_id : ∀ (l : List PRBasic) (acc : List (String × PRBasic)),
    (∀ e ∈ acc, e.2.id = e.1) → ∀ e ∈ mapFoldFrom acc l, e.2.id = e.1
  | [], acc, hacc => hacc
  | p :: l, acc, hacc => by
    unfold mapFoldFrom
    rw [List.foldl_cons]
    have step : ∀ e ∈ mapSet acc p.id p, e.2.id = e.1 := by
      intro e he
      unfold mapSet at he
      by_cases h : (acc.any fun e => decide (e.1 = p.id)) = true
      · rw [if_pos h] at he
        rw [List.mem_map] at he
        obtain ⟨e', he', heq⟩ := he
        by_cases hek : e'.1 = p.id
        · rw [if_pos hek] at heq
          rw [← heq, ← hek]
        · rw [if_neg hek] at heq
          rw [← heq]
          exact hacc e' he'
      · rw [if_neg h] at he
        rcases List.mem_append.mp he with hmem | hmem
        · exact hacc e hmem
        · rw [List.mem_singleton] at hmem
          rw [hmem]
    exact entries_snd_id l (mapSet acc p.id p) step

theorem lookupK_of_mem_nodup (acc : List (String × PRBasic))
    (hnd : (alKeys acc).Nodup) (e : String × PRBasic) (he : e ∈ acc) :
    lookupK acc e.1 = some e.2 := by
  induction acc with
  | nil => cases he
  | cons a acc ih =>
    unfold lookupK
    rw [List.find?_cons]
    rcases List.mem_cons.mp he with rfl | hmem
    · simp
    · have hne : (decide (a.1 = e.1)) = false := by
        simp only [decide_eq_false_iff_not]
        intro hc
        have h1 : a.1 ∉ alKeys acc := (List.nodup_cons.mp hnd).1
        have h2 : e.1 ∈ alKeys acc := by
          unfold alKeys
          rw [List.mem_map]
          exact ⟨e, hmem, rfl⟩
        rw [hc] at h1
        exact h1 h2
      rw [hne]
      exact ih (List.nodup_cons.mp hnd).2 hmem

theorem dedupById_lastWith (l : List PRBasic) (p : PRBasic)
    (hp : p ∈ dedupById l) : lastWith l p.id = some p := by
  unfold dedupById at hp
  rw [List.mem_map] at hp
  obtain ⟨e, he, rfl⟩ := hp
  have hid : e.2.id = e.1 :=
    entries_snd_id l [] (by intro e' he'; cases he') e he
  have hnd : (alKeys (mapFromEntries l)).Nodup := by
    rw [alKeys_mapFromEntries]
    exact nodup_firstDedupAux _ _
  have hlook : lookupK (mapFromEntries l) e.1 = some e.2 :=
    lookupK_of_mem_nodup (mapFromEntries l) hnd e he
  have hfold := lookupK_mapFoldFrom l [] e.1
  rw [← mapFromEntries_eq_mapFoldFrom] at hfold
  rw [hlook] at hfold
  rw [hid]
  cases hl : lastWith l e.1 with
  | some v => rw [hl] at hfold; exact hfold.symm
  | none =>
    rw [hl] at hfold
    exact absurd hfold.symm (by simp [lookupK])

theorem dedupById_ids (l : List PRBasic) :
    (dedupById l).map (·.id) = firstDedup (l.map (·.id)) := by
  unfold dedupById
  rw [List.map_map, ← alKeys_mapFromEntries]
  unfold alKeys
  apply List.map_congr_left
  intro e he
  exact entries_snd_id l [] (by intro e' he'; cases he') e he

/-- Claim C4: each bucket is merged by unique PR id — ids in the merged
bucket are pairwise distinct and are exactly the ids returned for that
bucket, in first-occurrence (insertion) order with no re-sorting; the
payload kept for an id is the last-seen one; and deduplication is
per-bucket only, so a PR present in two buckets keeps one entry in each. -/
theorem bucket_dedup :
    ∀ l : List PRBasic,
      (dedupById l).map (·.id) = firstDedup (l.map (·.id))
      ∧ ((dedupById l).map (·.id)).Nodup
      ∧ (∀ k : String, k ∈ (dedupById l).map (·.id) ↔ k ∈ l.map (·.id))
      ∧ (∀ p ∈ dedupById l, lastWith l p.id = some p)
      ∧ (∀ (mineAll reviewAll : List PRBasic) (p : PRBasic),
          p ∈ mineAll → p ∈ reviewAll →
          p.id ∈ (dedupById mineAll).map (·.id) ∧
            p.id ∈ (dedupById reviewAll).map (·.id)) := by
  have hmem : ∀ (l : List PRBasic) (k : String),
      k ∈ (dedupById l).map (·.id) ↔ k ∈ l.map (·.id) := by
    intro l k
    rw [dedupById_ids]
    unfold firstDedup
    rw [mem_firstDedupAux]
    simp
  intro l
  refine ⟨dedupById_ids l, ?_, hmem l, dedupById_lastWith l, ?_⟩
  · rw [dedupById_ids]
    exact nodup_firstDedupAux _ _
  · intro mineAll reviewAll p hm hr
    constructor
    · exact (hmem mineAll p.id).mpr (List.mem_map.mpr ⟨p, hm, rfl⟩)
    · exact (hmem reviewAll p.id).mpr (List.mem_map.mpr ⟨p, hr, rfl⟩)

/-- Witness for C4: the same id "x" arriving twice (from two scopes)
keeps one entry with the last-seen payload; and a PR present in both
mine and review stays once in each merged bucket. -/
theorem bucket_dedup_witness :
    ((dedupById [samplePR "x" 1 none none, samplePR "x" 2 none none]).map
      (·.id)).Nodup ∧
    ("x" ∈ (dedupById [samplePR "x" 1 none none, samplePR "x" 2 none none]).map
      (·.id)) ∧
    lastWith [samplePR "x" 1 none none, samplePR "x" 2 none none]
        (samplePR "x" 2 none none).id = some (samplePR "x" 2 none none) ∧
    ((samplePR "x" 1 none none).id
        ∈ (dedupById [samplePR "x" 1 none none]).map (·.id) ∧
      (samplePR "x" 1 none none).id
        ∈ (dedupById [samplePR "x" 1 none none, samplePR "y" 3 none none]).map
          (·.id)) :=
  ⟨(bucket_dedup [samplePR "x" 1 none none, samplePR "x" 2 none none]).2.1,
    ((bucket_dedup [samplePR "x" 1 none none, samplePR "x" 2 none none]).2.2.1
      "x").mpr (by decide),
    (bucket_dedup [samplePR "x" 1 none none, samplePR "x" 2 none none]).2.2.2.1
      (samplePR "x" 2 none none) (by decide),
    (bucket_dedup [samplePR "x" 1 none none]).2.2.2.2
      [samplePR "x" 1 none none]
      [samplePR "x" 1 none none, samplePR "y" 3 none none]
      (samplePR "x" 1 none none) (by decide) (by decide)⟩

/-! ## Scope-list and cache-key lemmas -/

/-- Character-list version of `joinComma`. -/
def joinC : List (List Char) → List Char
  | [] => []
  | [g] => g
  | g :: gs => g ++ ',' :: joinC gs

theorem joinComma_data : ∀ l : List String,
    (joinComma l).data = joinC (l.map String.data)
  | [] => rfl
  | [s] => rfl
  | s :: s' :: gs => by
    show (s ++ ("," ++ joinComma (s' :: gs))).data
      = s.data ++ ',' :: joinC ((s' :: gs).map String.data)
    rw [String.data_append, String.data_append, joinComma_data (s' :: gs)]
    rfl

theorem joinC_ne_nil (g : List Char) (gs : List (List Char)) (hg : g ≠ []) :
    joinC (g :: gs) ≠ [] := by
  cases gs with
  | nil => exact hg
  | cons g' gs' =>
    show g ++ ',' :: joinC (g' :: gs') ≠ []
    intro h
    exact List.noConfusion (List.append_eq_nil.mp h).2

theorem commaFree_append_cancel : ∀ (g1 g2 t1 t2 : List Char),
    ',' ∉ g1 → ',' ∉ g2 → g1 ++ ',' :: t1 = g2 ++ ',' :: t2 → g1 = g2 ∧ t1 = t2
  | [], [], _, _, _, _, h => by
    rw [List.nil_append, List.nil_append] at h
    injection h with _ ht
    exact ⟨rfl, ht⟩
  | [], c :: g2, _, _, _, h2, h => by
    rw [List.nil_append, List.cons_append] at h
    injection h with hc _
    rw [← hc] at h2
    exact absurd (List.mem_cons_self _ _) h2
  | c :: g1, [], _, _, h1, _, h => by
    rw [List.nil_append, List.cons_append] at h
    injection h with hc _
    rw [hc] at h1
    exact absurd (List.mem_cons_self _ _) h1
  | c1 :: g1, c2 :: g2, t1, t2, h1, h2, h => by
    rw [List.cons_append, List.cons_append] at h
    injection h with hc ht
    have hrec := commaFree_append_cancel g1 g2 t1 t2
      (fun hm => h1 (List.mem_cons_of_mem _ hm))
      (fun hm => h2 (List.mem_cons_of_mem _ hm)) ht
    exact ⟨by rw [hc, hrec.1], hrec.2⟩

theorem joinC_inj : ∀ (l1 l2 : List (List Char)),
    (∀ g ∈ l1, g ≠ [] ∧ ',' ∉ g) → (∀ g ∈ l2, g ≠ [] ∧ ',' ∉ g) →
    joinC l1 = joinC l2 → l1 = l2
  | [], [], _, _, _ => rfl
  | [], g :: gs, _, h2, h =>
    absurd h.symm (joinC_ne_nil g gs (h2 g (List.mem_cons_self _ _)).1)
  | g :: gs, [], h1, _, h =>
    absurd h (joinC_ne_nil g gs (h1 g (List.mem_cons_self _ _)).1)
  | [g1], [g2], _, _, h => by
    rw [show joinC [g1] = g1 from rfl, show joinC [g2] = g2 from rfl] at h
    rw [h]
  | [g1], g2 :: g2' :: gs2, h1, _, h => by
    exfalso
    rw [show joinC [g1] = g1 from rfl,
      show joinC (g2 :: g2' :: gs2) = g2 ++ ',' :: joinC (g2' :: gs2) from rfl] at h
    have hc : ',' ∈ g1 := by
      rw [h]
      exact List.mem_append_right _ (List.mem_cons_self _ _)
    exact (h1 g1 (List.mem_cons_self _ _)).2 hc
  | g1 :: g1' :: gs1, [g2], _, h2, h => by
    exfalso
    rw [show joinC [g2] = g2 from rfl,
      show joinC (g1 :: g1' :: gs1) = g1 ++ ',' :: joinC (g1' :: gs1) from rfl] at h
    have hc : ',' ∈ g2 := by
      rw [← h]
      exact List.mem_append_right _ (List.mem_cons_self _ _)
    exact (h2 g2 (List.mem_cons_self _ _)).2 hc
  | g1 :: g1' :: gs1, g2 :: g2' :: gs2, h1, h2, h => by
    rw [show joinC (g1 :: g1' :: gs1) = g1 ++ ',' :: joinC (g1' :: gs1) from rfl,
      show joinC (g2 :: g2' :: gs2) = g2 ++ ',' :: joinC (g2' :: gs2) from rfl] at h
    have hc := commaFree_append_cancel g1 g2 _ _
      (h1 g1 (List.mem_cons_self _ _)).2 (h2 g2 (List.mem_cons_self _ _)).2 h
    have hrec := joinC_inj (g1' :: gs1) (g2' :: gs2)
      (fun g hg => h1 g (List.mem_cons_of_mem _ hg))
      (fun g hg => h2 g (List.mem_cons_of_mem _ hg)) hc.2
    rw [hc.1, hrec]

theorem splitOnComma_ne_nil : ∀ cs : List Char, splitOnComma cs ≠ []
  | [] => by simp [splitOnComma]
  | c :: cs => by
    unfold splitOnComma
    by_cases hc : c = ','
    · rw [if_pos hc]; simp
    · rw [if_neg hc]
      cases h : splitOnComma cs <;> simp

theorem splitOnComma_no_comma : ∀ (cs g : List Char),
    g ∈ splitOnComma cs → ',' ∉ g
  | [], g, hg => by
    rw [show splitOnComma [] = [[]] from rfl, List.mem_singleton] at hg
    rw [hg]
    simp
  | c :: cs, g, hg => by
    unfold splitOnComma at hg
    by_cases hc : c = ','
    · rw [if_pos hc] at hg
      rcases List.mem_cons.mp hg with rfl | hmem
      · simp
      · exact splitOnComma_no_comma cs g hmem
    · rw [if_neg hc] at hg
      cases hrest : splitOnComma cs with
      | nil => exact absurd hrest (splitOnComma_ne_nil cs)
      | cons g0 gs =>
        rw [hrest] at hg
        rcases List.mem_cons.mp hg with rfl | hmem
        · intro hmem'
          rcases List.mem_cons.mp hmem' with hcomma | hmem''
          · exact hc hcomma.symm
          · exact splitOnComma_no_comma cs g0
              (hrest ▸ List.mem_cons_self g0 gs) hmem''
        · exact splitOnComma_no_comma cs g
            (hrest ▸ List.mem_cons_of_mem g0 hmem)

theorem trimChars_subset (cs : List Char) : ∀ c ∈ trimChars cs, c ∈ cs := by
  intro c hc
  unfold trimChars at hc
  rw [List.mem_reverse] at hc
  have h1 := (List.dropWhile_sublist (l := (cs.dropWhile isJsWS).reverse)
    (p := isJsWS)).subset hc
  rw [List.mem_reverse] at h1
  exact (List.dropWhile_sublist (l := cs) (p := isJsWS)).subset h1

theorem parseOrgs_valid (s : Option String) :
    ∀ t ∈ parseOrgs s, t.data ≠ [] ∧ ',' ∉ t.data := by
  intro t ht
  unfold parseOrgs at ht
  rw [List.mem_map] at ht
  obtain ⟨g, hg, rfl⟩ := ht
  rw [List.mem_filter] at hg
  obtain ⟨hg1, hg2⟩ := hg
  rw [List.mem_map] at hg1
  obtain ⟨g0, hg0, rfl⟩ := hg1
  refine ⟨by simpa using hg2, ?_⟩
  intro hc
  exact splitOnComma_no_comma _ g0 hg0 (trimChars_subset g0 ',' hc)

theorem joinComma_ne_empty (l : List String) (hne : l ≠ [])
    (hv : ∀ t ∈ l, t.data ≠ []) : joinComma l ≠ "" := by
  intro h
  have hd := congrArg String.data h
  rw [joinComma_data] at hd
  cases l with
  | nil => exact hne rfl
  | cons t ts =>
    rw [List.map_cons] at hd
    exact joinC_ne_nil t.data (ts.map String.data)
      (hv t (List.mem_cons_self _ _)) hd

theorem string_append_left_cancel {a b c : String} (h : a ++ b = a ++ c) :
    b = c := by
  have hd := congrArg String.data h
  rw [String.data_append, String.data_append] at hd
  exact String.ext (List.append_cancel_left hd)

/-- Counterexample to the "distinct scope configurations cache under
distinct keys" part of claim C8: the configured scope list `["all"]`
(from `GH_QUERY_ORGS="all"`) and the empty scope list (unset variable)
are distinct configurations with different search behavior, yet both
produce the cache key `overview:all`. -/
theorem scope_key_collision :
    parseOrgs (some "all") ≠ parseOrgs none ∧
    cacheKeyOf (parseOrgs (some "all")) = cacheKeyOf (parseOrgs none) := by
  constructor <;> decide

/-- Claim C8 as amended: an empty configured scope list produces exactly
one unscoped search pass whose queries carry no org filter, and the cache
key uses the sentinel "overview:all"; a non-empty scope list queries once
per org and caches under "overview:" followed by the joined list, and two
different non-empty parsed scope configurations always cache under
distinct keys — but the empty configuration collides with the single-org
configuration "all", which shares its key. -/
theorem scope_and_cache_key :
    (∀ s : Option String, parseOrgs s = [] →
      orgsToQueryOf (parseOrgs s) = [none] ∧
      cacheKeyOf (parseOrgs s) = "overview:all")
    ∧ buildQueries none =
        ⟨"is:pr is:open author:@me sort:updated-desc",
          "is:pr is:open review-requested:@me sort:updated-desc",
          "is:pr is:open assignee:@me sort:updated-desc"⟩
    ∧ (∀ orgs : List String, orgs ≠ [] → orgsToQueryOf orgs = orgs.map some)
    ∧ (∀ s : Option String, parseOrgs s ≠ [] →
        cacheKeyOf (parseOrgs s) = "overview:" ++ joinComma (parseOrgs s))
    ∧ (∀ s1 s2 : Option String, parseOrgs s1 ≠ [] → parseOrgs s2 ≠ [] →
        parseOrgs s1 ≠ parseOrgs s2 →
        cacheKeyOf (parseOrgs s1) ≠ cacheKeyOf (parseOrgs s2)) := by
  have hkey : ∀ s : Option String, parseOrgs s ≠ [] →
      cacheKeyOf (parseOrgs s) = "overview:" ++ joinComma (parseOrgs s) := by
    intro s h
    unfold cacheKeyOf
    rw [if_neg (joinComma_ne_empty _ h fun t ht => (parseOrgs_valid s t ht).1)]
  refine ⟨?_, by decide, ?_, hkey, ?_⟩
  · intro s h
    rw [h]
    exact ⟨rfl, by decide⟩
  · intro orgs h
    unfold orgsToQueryOf
    rw [if_pos (by exact List.length_pos.mpr h)]
  · intro s1 s2 h1 h2 hne hk
    apply hne
    rw [hkey s1 h1, hkey s2 h2] at hk
    have hjoin := string_append_left_cancel hk
    have hd := congrArg String.data hjoin
    rw [joinComma_data, joinComma_data] at hd
    have hmaps := joinC_inj _ _
      (fun g hg => by
        rw [List.mem_map] at hg
        obtain ⟨t, ht, rfl⟩ := hg
        exact ⟨(parseOrgs_valid s1 t ht).1, (parseOrgs_valid s1 t ht).2⟩)
      (fun g hg => by
        rw [List.mem_map] at hg
        obtain ⟨t, ht, rfl⟩ := hg
        exact ⟨(parseOrgs_valid s2 t ht).1, (parseOrgs_valid s2 t ht).2⟩) hd
    exact List.map_injective_iff.mpr (fun a b hab => String.ext hab) hmaps

/-- Witness for the amended C8 at concrete scope configurations. -/
theorem scope_and_cache_key_witness :
    (orgsToQueryOf (parseOrgs none) = [none] ∧
      cacheKeyOf (parseOrgs none) = "overview:all") ∧
    orgsToQueryOf ["octo"] = ["octo"].map some ∧
    cacheKeyOf (parseOrgs (some "octo,acme")) =
      "overview:" ++ joinComma (parseOrgs (some "octo,acme")) ∧
    cacheKeyOf (parseOrgs (some "octo")) ≠ cacheKeyOf (parseOrgs (some "acme")) :=
  ⟨scope_and_cache_key.1 none (by decide),
    scope_and_cache_key.2.2.1 ["octo"] (by decide),
    scope_and_cache_key.2.2.2.1 (some "octo,acme") (by decide),
    scope_and_cache_key.2.2.2.2 (some "octo") (some "acme")
      (by decide) (by decide) (by decide)⟩

/-- Witness for C10 at a concrete pending, SHA-less PR. -/
theorem no_headsha_skips_rest_witness :
    attachJobsM emptyRestWorld (samplePR "x" 1 (some .PENDING) none) =
      (samplePR "x" 1 (some .PENDING) none, 0) ∧
    (attachJobsM emptyRestWorld (samplePR "x" 1 (some .PENDING) none)).1.jobs =
      (samplePR "x" 1 (some .PENDING) none).jobs ∧
    enrichBucket emptyRestWorld [] Bucket.mine [samplePR "x" 1 (some .PENDING) none] =
      [samplePR "x" 1 (some .PENDING) none] ∧
    samplePR "x" 1 (some .PENDING) none ∈
      runningPRsOf [samplePR "x" 1 (some .PENDING) none] [] [] := by
  have h := no_headsha_skips_rest emptyRestWorld (samplePR "x" 1 (some .PENDING) none)
    [] [] [] [] Bucket.mine rfl
  exact ⟨h.1, h.2.1, h.2.2.1, h.2.2.2 (by decide)⟩
